import Mathlib

/-!
Verification development for the admin-dashboard order/review collection
engine (`src/pages/Dashboard.jsx`, `src/pages/Orders.jsx`, the reviews
screen).  The JavaScript core is embedded shallowly:

* JS `Date` values are milliseconds since the Unix epoch (`Int`), in a
  timezone-free (UTC) model.  Calendar conversions use the standard
  civil-from-days / days-from-civil algorithms; `Date.prototype.setDate`,
  `setMonth`, `setFullYear` are modelled with the ECMAScript `MakeDay`
  normalization (out-of-range fields overflow into neighbouring
  months/years, e.g. Feb 31 becomes Mar 2/3).
* JS numbers used as money are `Rat`; counters are `Nat`.
* A JS object used as an ordered string-keyed map (`ordersByDate`,
  `incomeByDate`, `countByStatus`) is an association list in insertion
  order: assignment to a fresh key appends, assignment to an existing key
  updates in place (ES2015 own-property order for non-integer-like keys).
* `Array.prototype.sort` is stable (ES2019) and sorts in place; it is
  modelled by the stable `List.insertionSort` on the comparator's `≤ 0`
  relation.  In-place mutation matters only where the sorted array aliases
  the record store; that aliasing is modelled explicitly
  (`dateFilterReturnsInput`, `storeAfterProcessData`).
* A JS expression that can throw (`review.comment.toLowerCase()` when
  `comment` is `undefined`) returns `Option`/`none` on the throwing path.
-/

namespace AlphaAdmin

/-! ## Calendar arithmetic (JS `Date`, UTC model) -/

/-- Days since 1970-01-01 of the civil date `y-m-d` (`m` is 1-based).
Linear in `d`, so out-of-range day numbers overflow exactly as JS
`Date` normalization does. -/
def daysFromCivil (y m d : Int) : Int :=
  let y2 : Int := if m ≤ 2 then y - 1 else y
  let era : Int := y2 / 400
  let yoe : Int := y2 - era * 400
  let mp : Int := if m > 2 then m - 3 else m + 9
  let doy : Int := (153 * mp + 2) / 5 + d - 1
  let doe : Int := yoe * 365 + yoe / 4 - yoe / 100 + doy
  era * 146097 + doe - 719468

/-- Civil date `(year, month 1..12, day 1..31)` of a day number. -/
def civilFromDays (z : Int) : Int × Int × Int :=
  let z2 : Int := z + 719468
  let era : Int := z2 / 146097
  let doe : Int := z2 - era * 146097
  let yoe : Int := (doe - doe / 1460 + doe / 36524 - doe / 146096) / 365
  let y : Int := yoe + era * 400
  let doy : Int := doe - (365 * yoe + yoe / 4 - yoe / 100)
  let mp : Int := (5 * doy + 2) / 153
  let d : Int := doy - (153 * mp + 2) / 5 + 1
  let m : Int := if mp < 10 then mp + 3 else mp - 9
  (if m ≤ 2 then y + 1 else y, m, d)

/-- A calendar date, as parsed from an `<input type="date">` string
`"YYYY-MM-DD"` (`new Date(str)` gives midnight of that day). -/
structure Civil where
  y : Int
  m : Int
  d : Int
deriving DecidableEq

/-- Millisecond timestamp of midnight (00:00:00.000) of a calendar date. -/
def civilMs (c : Civil) : Int :=
  86400000 * daysFromCivil c.y c.m c.d

/-- The current instant (`new Date()`), held in normalized civil form:
`y-m-d` is the calendar day and `msod` the milliseconds elapsed since its
midnight.  `getFullYear`/`getMonth`/`getDate` on a normalized date are the
stored fields. -/
structure Instant where
  y : Int
  m : Int
  d : Int
  msod : Int

/-- Millisecond timestamp of an instant. -/
def Instant.ms (t : Instant) : Int :=
  86400000 * daysFromCivil t.y t.m t.d + t.msod

/-- `start.setDate(now.getDate() - 7)` on a copy of `now`
(Dashboard `week` range). -/
def Instant.weekStartMs (t : Instant) : Int :=
  86400000 * daysFromCivil t.y t.m (t.d - 7) + t.msod

/-- `start.setMonth(now.getMonth() - 1)` on a copy of `now`
(Dashboard `month` range).  JS months are 0-based; `MakeDay` normalizes the
month into the year and lets an out-of-range day-of-month overflow. -/
def Instant.monthStartMs (t : Instant) : Int :=
  86400000 * daysFromCivil (t.y + (t.m - 2) / 12) ((t.m - 2) % 12 + 1) t.d + t.msod

/-- `start.setFullYear(now.getFullYear() - 1)` on a copy of `now`
(Dashboard `year` range). -/
def Instant.yearStartMs (t : Instant) : Int :=
  86400000 * daysFromCivil (t.y - 1) t.m t.d + t.msod

/-! ## Records -/

/-- An order record, restricted to the fields the collection engine reads
(`items`, `address`, … are opaque display data). -/
structure Order where
  date : Int
  amount : Rat
  status : String
deriving DecidableEq

/-- `review.user` sub-object (its `name` may be absent). -/
structure RUser where
  name : Option String
deriving DecidableEq

/-- `review.product` sub-object (its `name` may be absent). -/
structure RProduct where
  name : Option String
deriving DecidableEq

/-- A review record, restricted to the fields the collection engine reads.
`comment` is `Option` so that the behaviour of the screen on a record
missing that field can be stated. -/
structure Review where
  date : Int
  rating : Int
  comment : Option String
  user : Option RUser
  product : Option RProduct
deriving DecidableEq

/-- The fixed status enumeration (`statusOptions` in both screens). -/
def statusOptions : List String :=
  ["Order Placed", "Packing", "Shipped", "Out for delivery", "Delivered"]

/-! ## Dashboard: date-range filtering (`filterOrdersByDateRange`) -/

/-- `filterOrdersByDateRange` from `Dashboard.jsx`.  `range` is the
`dateRange` state string; `sd`/`ed` are the `startDate`/`endDate` strings
(`none` models the empty string, which is falsy).  The `week`/`month`/
`year` cases set `start` from a copy of `now` and keep `end = now`; the
`custom` case with both bounds set floors `start` to 00:00:00.000 and
ceils `end` to 23:59:59.999; the remaining cases return the input
collection itself. -/
def filterOrdersByDateRange (range : String) (sd ed : Option Civil)
    (now : Instant) (ordersData : List Order) : List Order :=
  if range = "week" then
    ordersData.filter fun o =>
      decide (now.weekStartMs ≤ o.date) && decide (o.date ≤ now.ms)
  else if range = "month" then
    ordersData.filter fun o =>
      decide (now.monthStartMs ≤ o.date) && decide (o.date ≤ now.ms)
  else if range = "year" then
    ordersData.filter fun o =>
      decide (now.yearStartMs ≤ o.date) && decide (o.date ≤ now.ms)
  else if range = "custom" then
    match sd, ed with
    | some s, some e =>
        ordersData.filter fun o =>
          decide (civilMs s ≤ o.date) && decide (o.date ≤ civilMs e + 86399999)
    | _, _ => ordersData
  else ordersData

/-- True exactly on the paths where `filterOrdersByDateRange` executes
`return ordersData`, i.e. returns the record-store array itself rather
than a fresh `Array.prototype.filter` result: `custom` with a missing
bound, and an unrecognised range key (the `switch` default). -/
def dateFilterReturnsInput (range : String) (sd ed : Option Civil) : Bool :=
  (range == "custom" && (sd.isNone || ed.isNone)) ||
    (range != "week" && range != "month" && range != "year" && range != "custom")

/-! ## Dashboard: scalar stats (`processData`) -/

/-- `Math.round(x)` = ⌊x + 1/2⌋, computed on the rational directly
(`num / den` is floor division because the denominator is positive). -/
def jsRound (x : Rat) : Int :=
  (x + 1 / 2).num / ((x + 1 / 2).den : Int)

/-- Numeric value of `x.toFixed(2)` for the non-negative amounts in scope:
round to the nearest hundredth, ties up. -/
def round2 (x : Rat) : Rat :=
  (jsRound (x * 100) : Rat) / 100

/-- The `stats` state object of the dashboard. -/
structure Stats where
  totalOrders : Nat
  totalIncome : Rat
  avgOrderValue : Rat
  pendingOrders : Nat
  deliveredOrders : Nat
deriving DecidableEq

/-- The basic-stats block of `processData`, over the date-filtered
collection.  `totalOrders ? (totalIncome / totalOrders).toFixed(2) : 0`
is the zero-guarded average. -/
def computeStats (filteredOrders : List Order) : Stats :=
  let totalOrders := filteredOrders.length
  let totalIncome := (filteredOrders.map Order.amount).sum
  { totalOrders := totalOrders
    totalIncome := totalIncome
    avgOrderValue :=
      if totalOrders = 0 then 0 else round2 (totalIncome / (totalOrders : Rat))
    pendingOrders := filteredOrders.countP fun o => decide (o.status ≠ "Delivered")
    deliveredOrders := filteredOrders.countP fun o => decide (o.status = "Delivered") }

/-- The "Pending Orders" card percentage:
`stats.totalOrders ? Math.round((stats.pendingOrders / stats.totalOrders) * 100) : 0`. -/
def pendingPct (st : Stats) : Int :=
  if st.totalOrders = 0 then 0
  else jsRound ((st.pendingOrders : Rat) / (st.totalOrders : Rat) * 100)

/-- The "Delivered Orders" card percentage, guarded the same way. -/
def deliveredPct (st : Stats) : Int :=
  if st.totalOrders = 0 then 0
  else jsRound ((st.deliveredOrders : Rat) / (st.totalOrders : Rat) * 100)

/-! ## Dashboard: chart bucketing (`prepareChartData`) -/

/-- Lookup in an insertion-ordered string-keyed map (JS object read). -/
def lookupA {α : Type} : List (String × α) → String → Option α
  | [], _ => none
  | (k, v) :: m, s => if k = s then some v else lookupA m s

/-- JS object write: update an existing key in place, else append. -/
def setA {α : Type} : List (String × α) → String → α → List (String × α)
  | [], s, v => [(s, v)]
  | (k, w) :: m, s, v => if k = s then (k, v) :: m else (k, w) :: setA m s v

/-- Month names used by `toLocaleDateString('en-US', { month: 'short' })`. -/
def monthShort (m : Int) : String :=
  ["Jan", "Feb", "Mar", "Apr", "May", "Jun", "Jul", "Aug", "Sep", "Oct",
    "Nov", "Dec"].getD (m - 1).toNat "Jan"

/-- Weekday names used by `toLocaleDateString('en-US', { weekday: 'short' })`;
day 0 (1970-01-01) was a Thursday. -/
def weekdayShort (z : Int) : String :=
  ["Sun", "Mon", "Tue", "Wed", "Thu", "Fri", "Sat"].getD ((z + 4) % 7).toNat "Sun"

/-- The bucket label of an order date under the active range's `dateFormat`:
`week` → weekday (e.g. "Mon"), `month` → "Mon D" (e.g. "Jan 15"),
otherwise → "Mon YYYY" (e.g. "Jan 2023"). -/
def formatLabel (range : String) (ms : Int) : String :=
  let z := ms / 86400000
  let c := civilFromDays z
  if range = "week" then weekdayShort z
  else if range = "month" then monthShort c.2.1 ++ " " ++ toString c.2.2
  else monthShort c.2.1 ++ " " ++ toString c.1

/-- One `forEach` iteration of the grouping loop: the
`if (!ordersByDate[dateStr])` guard (an absent key reads `undefined`,
and `undefined` and `0` are both falsy) initialises both maps, then both
entries are bumped. -/
def bucketStep (lbl : Order → String)
    (acc : List (String × Nat) × List (String × Rat)) (o : Order) :
    List (String × Nat) × List (String × Rat) :=
  let l := lbl o
  let c0 := acc.1
  let i0 := acc.2
  let c1 := if (lookupA c0 l).getD 0 = 0 then setA c0 l 0 else c0
  let i1 := if (lookupA c0 l).getD 0 = 0 then setA i0 l 0 else i0
  (setA c1 l ((lookupA c1 l).getD 0 + 1), setA i1 l ((lookupA i1 l).getD 0 + o.amount))

/-- Comparator relation of `(a, b) => new Date(a.date) - new Date(b.date)`. -/
def dateAsc (a b : Order) : Prop := a.date - b.date ≤ 0

instance : DecidableRel dateAsc := fun a b =>
  inferInstanceAs (Decidable (a.date - b.date ≤ 0))

/-- The chart data published by `prepareChartData`: the label list and
the two positionally aligned series (`Object.keys` / `Object.values` of
the same insertion-ordered objects). -/
structure Chart where
  labels : List String
  orderCounts : List Nat
  incomeCounts : List Rat
deriving DecidableEq

/-- `prepareChartData`: sort the received collection by date (in place in
the source), group into the two keyed maps, read off labels and series. -/
def prepareChartData (range : String) (filteredOrders : List Order) : Chart :=
  let sorted := List.insertionSort dateAsc filteredOrders
  let acc := sorted.foldl (bucketStep fun o => formatLabel range o.date) ([], [])
  { labels := acc.1.map Prod.fst
    orderCounts := acc.1.map Prod.snd
    incomeCounts := acc.2.map Prod.snd }

/-! ## Dashboard: status distribution (`prepareStatusData`) -/

/-- The `countByStatus` object: every status of the fixed enumeration is
initialised to 0 (in enumeration order), then each order bumps its status
key when that key exists (`if (countByStatus[order.status] !== undefined)`). -/
def countByStatus (ordersIn : List Order) : List (String × Nat) :=
  ordersIn.foldl
    (fun m o => m.map fun kv => if kv.1 = o.status then (kv.1, kv.2 + 1) else kv)
    (statusOptions.map fun s => (s, 0))

/-- The status chart published by `prepareStatusData`. -/
structure StatusChart where
  labels : List String
  data : List Nat
deriving DecidableEq

/-- `prepareStatusData` over the collection it is handed. -/
def prepareStatusData (ordersIn : List Order) : StatusChart :=
  { labels := statusOptions
    data := (countByStatus ordersIn).map Prod.snd }

/-! ## Dashboard: orchestration (`processData`) -/

/-- The dashboard's published state: `stats`, `chartData`, `statusData`
(`none` models the initial `null`). -/
structure DashState where
  stats : Stats
  chartData : Option Chart
  statusData : Option StatusChart
deriving DecidableEq

/-- Initial dashboard state: all-zero stats, null chart and status data. -/
def initDashState : DashState :=
  { stats := ⟨0, 0, 0, 0, 0⟩, chartData := none, statusData := none }

/-- `processData(ordersData)` as a transformer of the published state:
`if (!ordersData.length) return;` leaves everything untouched; otherwise
stats are computed over the date-filtered collection, which is then sorted
(in place) by `prepareChartData` before `prepareStatusData` receives it. -/
def processData (st : DashState) (range : String) (sd ed : Option Civil)
    (now : Instant) (ordersData : List Order) : DashState :=
  if ordersData.isEmpty then st
  else
    let filteredOrders := filterOrdersByDateRange range sd ed now ordersData
    { stats := computeStats filteredOrders
      chartData := some (prepareChartData range filteredOrders)
      statusData := some (prepareStatusData (List.insertionSort dateAsc filteredOrders)) }

/-- Contents of the `orders` record store after `processData` runs on it.
`prepareChartData` sorts its argument in place; on the paths where
`filterOrdersByDateRange` returned the store array itself
(`dateFilterReturnsInput`), that in-place sort reorders the store. -/
def storeAfterProcessData (range : String) (sd ed : Option Civil)
    (now : Instant) (ordersData : List Order) : List Order :=
  if ordersData.isEmpty then ordersData
  else if dateFilterReturnsInput range sd ed then
    List.insertionSort dateAsc ordersData
  else ordersData

/-! ## Orders screen (`Orders.jsx`) -/

/-- The date stage of `applyFilters`: active only when both bound strings
are non-empty (`if (startDate && endDate)`); `start` is floored to
00:00:00.000 and `end` ceiled to 23:59:59.999 of their days. -/
def dateStage (sd ed : Option Civil) (ordersIn : List Order) : List Order :=
  match sd, ed with
  | some s, some e =>
      ordersIn.filter fun o =>
        decide (civilMs s ≤ o.date) && decide (o.date ≤ civilMs e + 86399999)
  | _, _ => ordersIn

/-- The status stage of `applyFilters` (`if (statusFilter)`; the empty
string is falsy and imposes no constraint). -/
def statusStage (statusFilter : String) (ordersIn : List Order) : List Order :=
  if statusFilter = "" then ordersIn
  else ordersIn.filter fun o => decide (o.status = statusFilter)

/-- The date comparator of the orders screen (`applyFilters`,
`resetFilters`, `toggleSortOrder`): ascending when `sortOrder === 'asc'`,
else descending. -/
def jsOrderCmp (so : String) (a b : Order) : Int :=
  if so = "asc" then a.date - b.date else b.date - a.date

/-- The `≤ 0` relation of `jsOrderCmp`, used by the stable sort. -/
def orderLe (so : String) (a b : Order) : Prop := jsOrderCmp so a b ≤ 0

instance : ∀ so, DecidableRel (orderLe so) := fun _ a b =>
  inferInstanceAs (Decidable (_ ≤ 0))

/-- `applyFilters`: copy the store, filter by date then status, sort. -/
def applyFilters (sd ed : Option Civil) (statusFilter so : String)
    (allOrders : List Order) : List Order :=
  List.insertionSort (orderLe so) (statusStage statusFilter (dateStage sd ed allOrders))

/-- The status-summary cards: rendered only when the fetched store is
non-empty; each card shows the count over `allOrders` (the full store)
and `Math.round((count / allOrders.length) * 100)`. -/
def ordersStatusSummary (allOrders : List Order) :
    Option (List (String × Nat × Int)) :=
  if allOrders.length = 0 then none
  else some (statusOptions.map fun s =>
    let count := (allOrders.filter fun o => decide (o.status = s)).length
    (s, count, jsRound ((count : Rat) / (allOrders.length : Rat) * 100)))

/-! ## Reviews screen -/

/-- `s.toLowerCase()`, character by character. -/
def jsToLower (s : String) : String :=
  String.mk (s.data.map Char.toLower)

/-- `hay.includes(needle)`: substring containment. -/
def jsIncludes (hay needle : String) : Bool :=
  decide (needle.data <:+: hay.data)

/-- Sign model of `nameA.localeCompare(nameB)` for the already-lowercased
keys: lexicographic comparison of the character sequences. -/
def strCmp (a b : String) : Int :=
  if a.data < b.data then -1 else if b.data < a.data then 1 else 0

/-- `review.user?.name && review.user.name.toLowerCase().includes(searchLower)`:
an absent or empty name is falsy and the disjunct is false without error. -/
def userMatches (sl : String) (r : Review) : Bool :=
  match r.user.bind RUser.name with
  | none => false
  | some n => if n = "" then false else jsIncludes (jsToLower n) sl

/-- The product-name disjunct, guarded the same way. -/
def productMatches (sl : String) (r : Review) : Bool :=
  match r.product.bind RProduct.name with
  | none => false
  | some n => if n = "" then false else jsIncludes (jsToLower n) sl

/-- One evaluation of the search predicate.  The two guarded disjuncts
short-circuit; if both are false the code evaluates
`review.comment.toLowerCase().includes(searchLower)`, which throws
(`none`) when `comment` is absent. -/
def reviewKeep (sl : String) (r : Review) : Option Bool :=
  if userMatches sl r then some true
  else if productMatches sl r then some true
  else r.comment.map fun c => jsIncludes (jsToLower c) sl

/-- `filteredReviews`: `reviews.filter(...)`, propagating the throwing
path of any element as `none`. -/
def filteredReviews (searchTerm : String) (reviews : List Review) :
    Option (List Review) :=
  reviews.foldr
    (fun r acc =>
      match reviewKeep (jsToLower searchTerm) r, acc with
      | some true, some l => some (r :: l)
      | some false, some l => some l
      | _, _ => none)
    (some [])

/-- Modelled from the spec: the review search constraint of §4.1 — a
case-insensitive substring match against the candidate set {user name,
product name, comment text}, each missing sub-field taken as the empty
string, the record kept if any candidate matches. -/
def specReviewMatch (sl : String) (r : Review) : Bool :=
  jsIncludes (jsToLower ((r.user.bind RUser.name).getD "")) sl ||
    jsIncludes (jsToLower ((r.product.bind RProduct.name).getD "")) sl ||
    jsIncludes (jsToLower (r.comment.getD "")) sl

/-- The lowercased product-name sort key `(x.product?.name || '').toLowerCase()`. -/
def productKey (r : Review) : String :=
  jsToLower ((r.product.bind RProduct.name).getD "")

/-- The lowercased user-name sort key `(x.user?.name || '').toLowerCase()`. -/
def userKey (r : Review) : String :=
  jsToLower ((r.user.bind RUser.name).getD "")

/-- The comparator of `sortedReviews`, keyed by the `sortBy` state and
signed by the `sortOrder` state (any value other than `'asc'` is the
descending branch; an unrecognised key compares everything equal). -/
def jsReviewCmp (sb so : String) (a b : Review) : Int :=
  if sb = "date" then
    (if so = "asc" then a.date - b.date else b.date - a.date)
  else if sb = "rating" then
    (if so = "asc" then a.rating - b.rating else b.rating - a.rating)
  else if sb = "productName" then
    (if so = "asc" then strCmp (productKey a) (productKey b)
      else strCmp (productKey b) (productKey a))
  else if sb = "userName" then
    (if so = "asc" then strCmp (userKey a) (userKey b)
      else strCmp (userKey b) (userKey a))
  else 0

/-- The `≤ 0` relation of the review comparator. -/
def reviewLe (sb so : String) (a b : Review) : Prop := jsReviewCmp sb so a b ≤ 0

instance : ∀ sb so, DecidableRel (reviewLe sb so) := fun _ _ a b =>
  inferInstanceAs (Decidable (_ ≤ 0))

/-- `sortedReviews`: `[...filteredReviews].sort(comparator)` (a fresh
copy of the filtered list, stably sorted). -/
def sortedReviews (sb so : String) (reviews : List Review) : List Review :=
  List.insertionSort (reviewLe sb so) reviews

/-! ## Derived notions used only in theorem statements -/

/-- The first-occurrence subsequence of a list of labels, continued from
labels already seen. -/
def firstSeenAcc (seen : List String) : List String → List String
  | [] => seen
  | l :: ls => firstSeenAcc (if l ∈ seen then seen else seen ++ [l]) ls

/-- The labels of a list in first-seen order. -/
def firstSeen (ls : List String) : List String :=
  firstSeenAcc [] ls

/-! ## Helper lemmas: the string comparator -/

theorem strCmp_swap (a b : String) : strCmp a b = - strCmp b a := by
  unfold strCmp
  rcases lt_trichotomy a.data b.data with h | h | h
  · simp [h, lt_asymm h]
  · simp [h, lt_irrefl]
  · simp [h, lt_asymm h]

theorem strCmp_nonpos_iff (a b : String) : strCmp a b ≤ 0 ↔ a.data ≤ b.data := by
  unfold strCmp
  rcases lt_trichotomy a.data b.data with h | h | h
  · simp [h, le_of_lt h, lt_asymm h]
  · simp [h, lt_irrefl]
  · simp [lt_asymm h, h, not_le.mpr h]

theorem strCmp_eq_zero_iff (a b : String) : strCmp a b = 0 ↔ a.data = b.data := by
  unfold strCmp
  rcases lt_trichotomy a.data b.data with h | h | h
  · simp [h, ne_of_lt h]
  · simp [h, lt_irrefl]
  · simp [lt_asymm h, h, (ne_of_lt h).symm]

/-! ## Helper lemmas: stable sorting -/

/-- A stable sort leaves any class of pairwise-tied elements as the
subsequence it formed in the input. -/
theorem filter_insertionSort_eq {α : Type} (r : α → α → Prop) [DecidableRel r]
    (p : α → Bool) (hp : ∀ a b, p a = true → p b = true → r a b) (xs : List α) :
    (List.insertionSort r xs).filter p = xs.filter p := by
  have h1 : List.Sublist (xs.filter p) (List.insertionSort r xs) := by
    refine List.sublist_insertionSort ?_ (List.filter_sublist xs)
    refine List.pairwise_of_forall_mem_list ?_
    intro a ha b hb
    exact hp a b (List.of_mem_filter ha) (List.of_mem_filter hb)
  have h2 : List.Sublist ((xs.filter p).filter p) ((List.insertionSort r xs).filter p) :=
    h1.filter p
  have h3 : (xs.filter p).filter p = xs.filter p := by
    rw [List.filter_filter]
    exact List.filter_congr fun a _ => by cases h : p a <;> simp [h]
  rw [h3] at h2
  have hlen : ((List.insertionSort r xs).filter p).length = (xs.filter p).length := by
    rw [← List.countP_eq_length_filter, ← List.countP_eq_length_filter]
    exact (List.perm_insertionSort r xs).countP_eq p
  exact (h2.eq_of_length hlen.symm).symm

/-- Sorting two permuted lists whose elements are pairwise distinguished
by the order gives the same result. -/
theorem insertionSort_eq_of_perm {α : Type} (r : α → α → Prop) [DecidableRel r]
    [IsTotal α r] [IsTrans α r] (ne2 : α → α → Prop)
    (hsymm : ∀ {a b : α}, ne2 a b → ne2 b a)
    (hanti : ∀ a b, r a b → r b a → ne2 a b → False)
    {l₁ l₂ : List α} (hperm : l₁.Perm l₂) (hnd : l₂.Pairwise ne2) :
    List.insertionSort r l₁ = List.insertionSort r l₂ := by
  have s₁ := List.sorted_insertionSort r l₁
  have s₂ := List.sorted_insertionSort r l₂
  have hp : (List.insertionSort r l₁).Perm (List.insertionSort r l₂) :=
    (List.perm_insertionSort r l₁).trans (hperm.trans (List.perm_insertionSort r l₂).symm)
  have nd₂ : (List.insertionSort r l₂).Pairwise ne2 :=
    (List.Perm.pairwise_iff @hsymm (List.perm_insertionSort r l₂)).mpr hnd
  have nd₁ : (List.insertionSort r l₁).Pairwise ne2 :=
    (List.Perm.pairwise_iff @hsymm hp).mpr nd₂
  letI : IsAntisymm α (fun a b => r a b ∧ ne2 a b) :=
    ⟨fun a b h1 h2 => (hanti a b h1.1 h2.1 h1.2).elim⟩
  exact List.eq_of_perm_of_sorted (r := fun a b => r a b ∧ ne2 a b) hp
    (List.Pairwise.and s₁ nd₁) (List.Pairwise.and s₂ nd₂)

/-! ## Helper lemmas: the review comparator at each recognised key -/

theorem jsReviewCmp_date (so : String) (a b : Review) :
    jsReviewCmp "date" so a b = if so = "asc" then a.date - b.date else b.date - a.date := rfl

theorem jsReviewCmp_rating (so : String) (a b : Review) :
    jsReviewCmp "rating" so a b
      = if so = "asc" then a.rating - b.rating else b.rating - a.rating := rfl

theorem jsReviewCmp_productName (so : String) (a b : Review) :
    jsReviewCmp "productName" so a b
      = if so = "asc" then strCmp (productKey a) (productKey b)
        else strCmp (productKey b) (productKey a) := rfl

theorem jsReviewCmp_userName (so : String) (a b : Review) :
    jsReviewCmp "userName" so a b
      = if so = "asc" then strCmp (userKey a) (userKey b)
        else strCmp (userKey b) (userKey a) := rfl

/-! ## Helper lemmas: insertion-ordered string-keyed maps -/

theorem lookupA_isSome_iff {α : Type} (m : List (String × α)) (k : String) :
    (lookupA m k).isSome = true ↔ k ∈ m.map Prod.fst := by
  induction m with
  | nil => simp [lookupA]
  | cons kv m ih =>
    obtain ⟨k1, v1⟩ := kv
    by_cases h : k1 = k
    · subst h; simp [lookupA]
    · have hne : ¬ k = k1 := fun hh => h hh.symm
      simp [lookupA, h, ih, hne]

theorem lookupA_setA_self {α : Type} (m : List (String × α)) (k : String) (v : α) :
    lookupA (setA m k v) k = some v := by
  induction m with
  | nil => simp [setA, lookupA]
  | cons kv m ih =>
    obtain ⟨k1, v1⟩ := kv
    by_cases h : k1 = k <;> simp [setA, lookupA, h, ih]

theorem setA_keys {α : Type} (m : List (String × α)) (k : String) (v : α) :
    (setA m k v).map Prod.fst
      = if (lookupA m k).isSome then m.map Prod.fst else m.map Prod.fst ++ [k] := by
  induction m with
  | nil => simp [setA, lookupA]
  | cons kv m ih =>
    obtain ⟨k1, v1⟩ := kv
    by_cases h : k1 = k
    · simp [setA, lookupA, h]
    · by_cases h2 : (lookupA m k).isSome = true <;> simp [setA, lookupA, h, ih, h2]

/-- One grouping iteration extends both key sequences by the label when it
is fresh, keeps them unchanged otherwise, and keeps them equal. -/
theorem bucketStep_keys (lbl : Order → String) (c : List (String × Nat))
    (i : List (String × Rat)) (o : Order)
    (hki : i.map Prod.fst = c.map Prod.fst) :
    ((bucketStep lbl (c, i) o).1.map Prod.fst
        = if lbl o ∈ c.map Prod.fst then c.map Prod.fst else c.map Prod.fst ++ [lbl o])
    ∧ (bucketStep lbl (c, i) o).2.map Prod.fst = (bucketStep lbl (c, i) o).1.map Prod.fst := by
  have his : (lookupA i (lbl o)).isSome = (lookupA c (lbl o)).isSome := by
    cases hc : (lookupA c (lbl o)).isSome
    · cases hi : (lookupA i (lbl o)).isSome
      · rfl
      · exact absurd ((lookupA_isSome_iff c (lbl o)).mpr
          (hki ▸ (lookupA_isSome_iff i (lbl o)).mp hi)) (by simp [hc])
    · exact (lookupA_isSome_iff i (lbl o)).mpr (hki ▸ (lookupA_isSome_iff c (lbl o)).mp hc)
  cases hc : lookupA c (lbl o) with
  | none =>
    have hisi : (lookupA i (lbl o)).isSome = false := by rw [his]; simp [hc]
    have hmem : lbl o ∉ List.map Prod.fst c := fun hm => by
      have hx := (lookupA_isSome_iff c (lbl o)).mpr hm
      rw [hc] at hx
      simp at hx
    constructor <;>
      simp [bucketStep, hc, setA_keys, lookupA_setA_self, hisi, hmem, hki]
  | some n =>
    have hmem : lbl o ∈ List.map Prod.fst c :=
      (lookupA_isSome_iff c (lbl o)).mp (by simp [hc])
    have hisi : (lookupA i (lbl o)).isSome = true := by rw [his]; simp [hc]
    by_cases hn : n = 0
    · subst hn
      constructor <;> simp [bucketStep, hc, setA_keys, lookupA_setA_self, hisi, hmem, hki]
    · constructor <;>
        simp [bucketStep, hc, hn, setA_keys, lookupA_setA_self, hisi, hmem, hki]

/-- The grouping fold emits keys in first-seen order, identically in both
maps. -/
theorem bucketFold_keys (lbl : Order → String) (os : List Order) :
    ∀ (c : List (String × Nat)) (i : List (String × Rat)),
      i.map Prod.fst = c.map Prod.fst →
      (os.foldl (bucketStep lbl) (c, i)).1.map Prod.fst
          = firstSeenAcc (c.map Prod.fst) (os.map lbl)
        ∧ (os.foldl (bucketStep lbl) (c, i)).2.map Prod.fst
          = firstSeenAcc (c.map Prod.fst) (os.map lbl) := by
  induction os with
  | nil => intro c i h; simp [firstSeenAcc, h]
  | cons o os ih =>
    intro c i h
    obtain ⟨h1, h2⟩ := bucketStep_keys lbl c i o h
    obtain ⟨g1, g2⟩ := ih (bucketStep lbl (c, i) o).1 (bucketStep lbl (c, i) o).2 h2
    simp only [List.foldl_cons, List.map_cons, firstSeenAcc]
    constructor
    · rw [← h1]; exact g1
    · rw [← h1]; exact g2

/-! ## Helper lemmas: status counting -/

theorem countByStatus_foldl (os : List Order) (m : List (String × Nat)) :
    os.foldl (fun m o => m.map fun kv => if kv.1 = o.status then (kv.1, kv.2 + 1) else kv) m
      = m.map fun kv => (kv.1, kv.2 + os.countP fun o => decide (o.status = kv.1)) := by
  induction os generalizing m with
  | nil => simp
  | cons o os ih =>
    rw [List.foldl_cons, ih, List.map_map]
    refine List.map_congr_left ?_
    intro kv _
    by_cases h : kv.1 = o.status
    · simp only [Function.comp, h, if_pos rfl]
      simp [List.countP_cons, h.symm]
      omega
    · have hne : ¬ (o.status = kv.1) := fun hh => h hh.symm
      simp only [Function.comp, if_neg h]
      simp [List.countP_cons, hne]

theorem countByStatus_eq (os : List Order) :
    countByStatus os
      = statusOptions.map fun s => (s, os.countP fun o => decide (o.status = s)) := by
  unfold countByStatus
  rw [countByStatus_foldl, List.map_map]
  simp [Function.comp]

/-- The dashboard status chart publishes, per enumerated status, the count
over exactly the collection `prepareStatusData` was handed (restated over
the unsorted date-filtered collection). -/
theorem dashStatusData_counts (range : String) (sd ed : Option Civil) (now : Instant)
    (allOrders : List Order) :
    (prepareStatusData (List.insertionSort dateAsc
        (filterOrdersByDateRange range sd ed now allOrders))).data
      = statusOptions.map fun s =>
          (filterOrdersByDateRange range sd ed now allOrders).countP
            fun o => decide (o.status = s) := by
  unfold prepareStatusData
  rw [countByStatus_eq, List.map_map]
  refine List.map_congr_left ?_
  intro s _
  simp only [Function.comp]
  exact (List.perm_insertionSort dateAsc _).countP_eq _

/-! ## Helper lemmas: the dashboard date filter branch by branch -/

theorem filterOrders_week_eq (sd ed : Option Civil) (now : Instant) (orders : List Order) :
    filterOrdersByDateRange "week" sd ed now orders
      = orders.filter fun o =>
          decide (now.weekStartMs ≤ o.date) && decide (o.date ≤ now.ms) := rfl

theorem filterOrders_month_eq (sd ed : Option Civil) (now : Instant) (orders : List Order) :
    filterOrdersByDateRange "month" sd ed now orders
      = orders.filter fun o =>
          decide (now.monthStartMs ≤ o.date) && decide (o.date ≤ now.ms) := rfl

theorem filterOrders_year_eq (sd ed : Option Civil) (now : Instant) (orders : List Order) :
    filterOrdersByDateRange "year" sd ed now orders
      = orders.filter fun o =>
          decide (now.yearStartMs ≤ o.date) && decide (o.date ≤ now.ms) := rfl

/-- Subtracting 7 from the day-of-month field moves the instant back by
exactly 7 days, because day numbering is linear in the day field. -/
theorem weekStart_linear (t : Instant) : t.weekStartMs = t.ms - 7 * 86400000 := by
  simp only [Instant.weekStartMs, Instant.ms, daysFromCivil]
  split_ifs <;> omega

/-! ## Helper lemmas: the review search predicate -/

/-- On a review that has a comment field, one evaluation of the search
predicate never throws and agrees with the candidate-set semantics of the
specification. -/
theorem reviewKeep_eq_spec (sl : String) (r : Review) (c : String)
    (hc : r.comment = some c) :
    reviewKeep sl r = some (specReviewMatch sl r) := by
  unfold reviewKeep specReviewMatch
  rw [hc]
  by_cases hsl : sl.data = []
  · have hcm : jsIncludes (jsToLower c) sl = true := by
      simp [jsIncludes, hsl]
    split_ifs <;> simp [hcm]
  · have hu : jsIncludes (jsToLower ((r.user.bind RUser.name).getD "")) sl
        = userMatches sl r := by
      unfold userMatches
      cases hn : r.user.bind RUser.name with
      | none =>
          simp [jsIncludes, jsToLower, List.infix_nil, hsl]
      | some n =>
          by_cases hne : n = ""
          · simp [hne, jsIncludes, jsToLower, List.infix_nil, hsl]
          · simp [hne]
    have hp : jsIncludes (jsToLower ((r.product.bind RProduct.name).getD "")) sl
        = productMatches sl r := by
      unfold productMatches
      cases hn : r.product.bind RProduct.name with
      | none =>
          simp [jsIncludes, jsToLower, List.infix_nil, hsl]
      | some n =>
          by_cases hne : n = ""
          · simp [hne, jsIncludes, jsToLower, List.infix_nil, hsl]
          · simp [hne]
    rw [hu, hp]
    cases hum : userMatches sl r <;> cases hpm : productMatches sl r <;> simp

/-! ## Claim C1 -/

/-- C1 counterexample: with the `custom` range selected and no custom
bounds set (the initial state of those fields), `processData` leaves the
record store re-ordered — `filterOrdersByDateRange` returns the store
array itself and `prepareChartData` sorts it in place — refuting the
claim that Filter/Sort/Aggregation never mutate the Record Store on the
inactive-date-filter path. -/
theorem C1_store_mutation_counterexample :
    storeAfterProcessData "custom" none none ⟨2024, 1, 1, 0⟩
        [⟨2, 1, "Packing"⟩, ⟨1, 1, "Packing"⟩]
      ≠ [⟨2, 1, "Packing"⟩, ⟨1, 1, "Packing"⟩] := by decide

/-- C1 amended: filtering and aggregation are pure, and on every path
where the date filter is active (so the sorted array is a fresh filter
result) the record store is untouched by `processData`; on the
inactive-filter paths the in-place sort re-orders the store, but never
adds, drops or edits records (the store stays a permutation of itself). -/
theorem C1_store_preservation_amended (range : String) (sd ed : Option Civil)
    (now : Instant) (store : List Order) :
    (dateFilterReturnsInput range sd ed = false →
      storeAfterProcessData range sd ed now store = store)
    ∧ (storeAfterProcessData range sd ed now store).Perm store := by
  constructor
  · intro h
    unfold storeAfterProcessData
    simp [h]
  · unfold storeAfterProcessData
    split_ifs
    · exact List.Perm.refl _
    · exact List.perm_insertionSort _ _
    · exact List.Perm.refl _

/-- C1 witness: the `week` range path leaves a concrete two-element store
unchanged. -/
theorem C1_store_preservation_witness :
    storeAfterProcessData "week" none none ⟨2024, 1, 1, 0⟩
        [⟨2, 1, "Packing"⟩, ⟨1, 1, "Packing"⟩]
      = [⟨2, 1, "Packing"⟩, ⟨1, 1, "Packing"⟩]
    ∧ (storeAfterProcessData "week" none none ⟨2024, 1, 1, 0⟩
        [⟨2, 1, "Packing"⟩, ⟨1, 1, "Packing"⟩]).Perm
        [⟨2, 1, "Packing"⟩, ⟨1, 1, "Packing"⟩] :=
  ⟨(C1_store_preservation_amended "week" none none ⟨2024, 1, 1, 0⟩
      [⟨2, 1, "Packing"⟩, ⟨1, 1, "Packing"⟩]).1 (by decide),
    (C1_store_preservation_amended "week" none none ⟨2024, 1, 1, 0⟩
      [⟨2, 1, "Packing"⟩, ⟨1, 1, "Packing"⟩]).2⟩

/-! ## Claim C2 -/

/-- C2 counterexample: two orders both in status `Packing`, one inside
and one outside the custom date range.  The status data the dashboard
publishes counts only the in-range order, so it differs from the
per-status counts over the full record store, refuting the claim that
every screen computes the status summary against the unfiltered store. -/
theorem C2_status_summary_counterexample :
    (prepareStatusData (List.insertionSort dateAsc
        (filterOrdersByDateRange "custom" (some ⟨1970, 1, 5⟩) (some ⟨1970, 1, 15⟩)
          ⟨2024, 1, 1, 0⟩
          [⟨86400000 * 10, 1, "Packing"⟩, ⟨86400000 * 40, 1, "Packing"⟩]))).data
      ≠ statusOptions.map fun s =>
          ([⟨86400000 * 10, 1, "Packing"⟩,
            ⟨86400000 * 40, 1, "Packing"⟩] : List Order).countP
            fun o => decide (o.status = s) := by decide

/-- C2 amended: the orders screen computes its status summary against the
full record store — for each enumerated status the count over all fetched
records, with percentage `round(count / total * 100)`, published only when
the store is non-empty — while the dashboard orders-by-status data counts
over the date-range-filtered collection (and publishes counts only). -/
theorem C2_status_summary_amended (allOrders : List Order) (range : String)
    (sd ed : Option Civil) (now : Instant) :
    (allOrders ≠ [] →
      ordersStatusSummary allOrders
        = some (statusOptions.map fun s =>
            ((s, (allOrders.filter fun o => decide (o.status = s)).length,
              jsRound (((allOrders.filter fun o => decide (o.status = s)).length : Rat)
                / (allOrders.length : Rat) * 100)) : String × Nat × Int)))
    ∧ (prepareStatusData (List.insertionSort dateAsc
          (filterOrdersByDateRange range sd ed now allOrders))).data
        = statusOptions.map fun s =>
            (filterOrdersByDateRange range sd ed now allOrders).countP
              fun o => decide (o.status = s) := by
  constructor
  · intro h
    have hl : ¬ allOrders.length = 0 := by simpa [List.length_eq_zero] using h
    simp [ordersStatusSummary, hl]
  · exact dashStatusData_counts range sd ed now allOrders

/-- C2 witness: a one-order store, with the `week` range active on the
dashboard side. -/
theorem C2_status_summary_witness :
    ordersStatusSummary [⟨0, 1, "Packing"⟩]
      = some (statusOptions.map fun s =>
          ((s, (([⟨0, 1, "Packing"⟩] : List Order).filter
              fun o => decide (o.status = s)).length,
            jsRound (((([⟨0, 1, "Packing"⟩] : List Order).filter
                fun o => decide (o.status = s)).length : Rat)
              / (([⟨0, 1, "Packing"⟩] : List Order).length : Rat) * 100)) : String × Nat × Int))
    ∧ (prepareStatusData (List.insertionSort dateAsc
          (filterOrdersByDateRange "week" none none ⟨2024, 1, 1, 0⟩
            [⟨0, 1, "Packing"⟩]))).data
        = statusOptions.map fun s =>
            (filterOrdersByDateRange "week" none none ⟨2024, 1, 1, 0⟩
              [⟨0, 1, "Packing"⟩]).countP fun o => decide (o.status = s) :=
  ⟨(C2_status_summary_amended [⟨0, 1, "Packing"⟩] "week" none none ⟨2024, 1, 1, 0⟩).1
      (by decide),
    (C2_status_summary_amended [⟨0, 1, "Packing"⟩] "week" none none ⟨2024, 1, 1, 0⟩).2⟩

/-! ## Claim C3 -/

/-- C3 counterexample: at `now` = 2024-03-31 12:00 UTC the `month` range
starts one calendar month back, which normalizes (Feb 31 overflowing) to
2024-03-02 12:00 — a 29-day window, not 30 days.  An order dated
2024-03-01 18:00 UTC (day number 19783) lies within the last 30 days
ending `now` yet the filter drops it, refuting `month` = last 30 days. -/
theorem C3_date_range_counterexample :
    (⟨2024, 3, 31, 43200000⟩ : Instant).ms - 30 * 86400000
        ≤ (86400000 * 19783 + 64800000 : Int)
    ∧ (86400000 * 19783 + 64800000 : Int) ≤ (⟨2024, 3, 31, 43200000⟩ : Instant).ms
    ∧ filterOrdersByDateRange "month" none none ⟨2024, 3, 31, 43200000⟩
        [⟨86400000 * 19783 + 64800000, 1, "Packing"⟩] = [] := by decide

/-- C3 amended: the dashboard resolves `week` to the last 7 times 24 hours
ending now, while `month` and `year` go back one calendar month (with JS
day-overflow normalization) and one calendar year respectively — not a
fixed 30 or 365 days; in each of the three ranges an order is kept iff its
date lies in the inclusive interval from the resolved start to now. -/
theorem C3_date_range_amended (range : String) (sd ed : Option Civil) (now : Instant)
    (orders : List Order) (o : Order) :
    now.weekStartMs = now.ms - 7 * 86400000
    ∧ (o ∈ filterOrdersByDateRange "week" sd ed now orders
        ↔ o ∈ orders ∧ now.weekStartMs ≤ o.date ∧ o.date ≤ now.ms)
    ∧ (o ∈ filterOrdersByDateRange "month" sd ed now orders
        ↔ o ∈ orders ∧ now.monthStartMs ≤ o.date ∧ o.date ≤ now.ms)
    ∧ (o ∈ filterOrdersByDateRange "year" sd ed now orders
        ↔ o ∈ orders ∧ now.yearStartMs ≤ o.date ∧ o.date ≤ now.ms) := by
  refine ⟨weekStart_linear now, ?_, ?_, ?_⟩
  · rw [filterOrders_week_eq]
    simp [List.mem_filter]
  · rw [filterOrders_month_eq]
    simp [List.mem_filter]
  · rw [filterOrders_year_eq]
    simp [List.mem_filter]

/-! ## Claim C4 -/

/-- C4 counterexample: a review with no comment field (and no matching
user or product name) makes the search filter throw —
`review.comment.toLowerCase()` on `undefined` — rather than treat the
missing comment as an empty string, refuting totality. -/
theorem C4_search_counterexample :
    filteredReviews "x" [⟨0, 3, none, none, none⟩] = none := by decide

/-- C4 amended: missing user-name and product-name sub-fields are safe
(optional-chaining guards make them non-matching without error), but
`comment` is unguarded: the filter is total only over reviews that carry a
comment field, and on such lists it keeps exactly the reviews with some
candidate in {user name, product name, comment} containing the search text
case-insensitively, missing names taken as empty strings. -/
theorem C4_search_amended (searchTerm : String) (reviews : List Review)
    (hc : ∀ r ∈ reviews, (r.comment).isSome = true) :
    filteredReviews searchTerm reviews
      = some (reviews.filter (specReviewMatch (jsToLower searchTerm))) := by
  induction reviews with
  | nil => rfl
  | cons r rs ih =>
    have hr := hc r (by simp)
    obtain ⟨c, hc2⟩ := Option.isSome_iff_exists.mp hr
    have ihh := ih fun x hx => hc x (by simp [hx])
    unfold filteredReviews at ihh ⊢
    simp only [List.foldr_cons]
    rw [ihh, reviewKeep_eq_spec _ r c hc2]
    cases hm : specReviewMatch (jsToLower searchTerm) r <;>
      simp [List.filter_cons, hm]

/-- C4 witness: a one-review list whose comment is present. -/
theorem C4_search_witness :
    filteredReviews "ok" [⟨0, 5, some "Great product", none, none⟩]
      = some (([⟨0, 5, some "Great product", none, none⟩] : List Review).filter
          (specReviewMatch (jsToLower "ok"))) :=
  C4_search_amended "ok" [⟨0, 5, some "Great product", none, none⟩] (by decide)

/-! ## Claim C5 -/

/-- C5: handing the dashboard data-processing step an empty order
collection publishes nothing — the previously published stats, chart data
and status data (initially the all-zero stats and null chart/status data)
are returned unchanged rather than recomputed over the empty collection. -/
theorem C5_empty_processData_frame (st : DashState) (range : String)
    (sd ed : Option Civil) (now : Instant) :
    processData st range sd ed now [] = st
    ∧ initDashState.stats = ⟨0, 0, 0, 0, 0⟩
    ∧ initDashState.chartData = none
    ∧ initDashState.statusData = none :=
  ⟨rfl, rfl, rfl, rfl⟩

/-! ## Claim C6 -/

/-- C6: division by an empty denominator never happens: the average order
value is 0 when the date-filtered collection is empty and otherwise the
income/count quotient rounded to 2 decimal places; the pending and
delivered percentage cards are 0 when total orders is 0; and the orders
screen publishes no status summary at all when the store is empty, so no
per-status percentage is ever published with a zero denominator. -/
theorem C6_zero_division_safety (range : String) (sd ed : Option Civil) (now : Instant)
    (store : List Order) (st : Stats) :
    (filterOrdersByDateRange range sd ed now store = [] →
      (computeStats (filterOrdersByDateRange range sd ed now store)).avgOrderValue = 0)
    ∧ (filterOrdersByDateRange range sd ed now store ≠ [] →
      (computeStats (filterOrdersByDateRange range sd ed now store)).avgOrderValue
        = round2 ((computeStats (filterOrdersByDateRange range sd ed now store)).totalIncome
            / ((computeStats (filterOrdersByDateRange range sd ed now store)).totalOrders : Rat)))
    ∧ (st.totalOrders = 0 → pendingPct st = 0 ∧ deliveredPct st = 0)
    ∧ ordersStatusSummary [] = none := by
  refine ⟨?_, ?_, ?_, rfl⟩
  · intro h
    rw [h]
    simp [computeStats]
  · intro h
    have hl : (filterOrdersByDateRange range sd ed now store).length ≠ 0 := by
      simpa [List.length_eq_zero] using h
    simp [computeStats, hl]
  · intro h
    simp [pendingPct, deliveredPct, h]

/-- C6 witness: the empty store under the `week` range, a one-order store
under the inactive `custom` range, and the all-zero stats record. -/
theorem C6_zero_division_witness :
    (computeStats (filterOrdersByDateRange "week" none none ⟨2024, 1, 1, 0⟩ [])).avgOrderValue
        = 0
    ∧ (computeStats (filterOrdersByDateRange "custom" none none ⟨2024, 1, 1, 0⟩
          [⟨0, 1, "Packing"⟩])).avgOrderValue
        = round2 ((computeStats (filterOrdersByDateRange "custom" none none ⟨2024, 1, 1, 0⟩
            [⟨0, 1, "Packing"⟩])).totalIncome
          / ((computeStats (filterOrdersByDateRange "custom" none none ⟨2024, 1, 1, 0⟩
            [⟨0, 1, "Packing"⟩])).totalOrders : Rat))
    ∧ (pendingPct ⟨0, 0, 0, 0, 0⟩ = 0 ∧ deliveredPct ⟨0, 0, 0, 0, 0⟩ = 0)
    ∧ ordersStatusSummary [] = none :=
  ⟨(C6_zero_division_safety "week" none none ⟨2024, 1, 1, 0⟩ [] ⟨0, 0, 0, 0, 0⟩).1 (by decide),
    (C6_zero_division_safety "custom" none none ⟨2024, 1, 1, 0⟩
      [⟨0, 1, "Packing"⟩] ⟨0, 0, 0, 0, 0⟩).2.1 (by decide),
    (C6_zero_division_safety "week" none none ⟨2024, 1, 1, 0⟩ [] ⟨0, 0, 0, 0, 0⟩).2.2.1
      (by decide),
    (C6_zero_division_safety "week" none none ⟨2024, 1, 1, 0⟩ [] ⟨0, 0, 0, 0, 0⟩).2.2.2⟩

/-! ## Claim C7 -/

/-- C7: the chart preparation emits its bucket labels in first-seen order
over the date-sorted collection it groups (not sorted lexicographically),
and the label sequence and the two published series — order counts and
income — have the same length, the two value series being read off maps
whose key sequences coincide position by position with the labels. -/
theorem C7_chart_alignment (range : String) (filteredOrders : List Order) :
    (prepareChartData range filteredOrders).labels
        = firstSeen ((List.insertionSort dateAsc filteredOrders).map
            fun o => formatLabel range o.date)
    ∧ (prepareChartData range filteredOrders).orderCounts.length
        = (prepareChartData range filteredOrders).labels.length
    ∧ (prepareChartData range filteredOrders).incomeCounts.length
        = (prepareChartData range filteredOrders).labels.length := by
  obtain ⟨h1, h2⟩ := bucketFold_keys (fun o => formatLabel range o.date)
    (List.insertionSort dateAsc filteredOrders) [] [] rfl
  have hkeys :
      ((List.insertionSort dateAsc filteredOrders).foldl
          (bucketStep fun o => formatLabel range o.date) ([], [])).2.map Prod.fst
        = ((List.insertionSort dateAsc filteredOrders).foldl
          (bucketStep fun o => formatLabel range o.date) ([], [])).1.map Prod.fst :=
    h2.trans h1.symm
  refine ⟨?_, ?_, ?_⟩
  · simpa [prepareChartData, firstSeen] using h1
  · simp [prepareChartData]
  · have hlen := congrArg List.length hkeys
    simpa [prepareChartData] using hlen

/-! ## Claim C8 -/

/-- C8: review sorting is stable for each recognised key — the elements
tied with any fixed review under the ascending comparator appear in the
output exactly as they appeared in the input — and on key-distinct lists
re-sorting a descending sort ascending reproduces the ascending sort; the
orders-screen date sort (the comparator toggled by `toggleSortOrder`)
satisfies the same two properties. -/
theorem C8_sort_stable_reversal (sb so : String)
    (hsb : sb = "date" ∨ sb = "rating" ∨ sb = "productName" ∨ sb = "userName")
    (xs : List Review) (r₀ : Review) (os : List Order) :
    ((sortedReviews sb so xs).filter (fun x => decide (jsReviewCmp sb "asc" x r₀ = 0))
        = xs.filter (fun x => decide (jsReviewCmp sb "asc" x r₀ = 0)))
    ∧ ((xs.Pairwise fun a b => jsReviewCmp sb "asc" a b ≠ 0) →
        sortedReviews sb "asc" (sortedReviews sb "desc" xs) = sortedReviews sb "asc" xs)
    ∧ (∀ d : Int, (List.insertionSort (orderLe so) os).filter (fun o => decide (o.date = d))
        = os.filter (fun o => decide (o.date = d)))
    ∧ ((os.Pairwise fun a b => a.date ≠ b.date) →
        List.insertionSort (orderLe "asc") (List.insertionSort (orderLe "desc") os)
          = List.insertionSort (orderLe "asc") os) := by
  refine ⟨?_, ?_, ?_, ?_⟩
  · rcases hsb with rfl | rfl | rfl | rfl
    · refine filter_insertionSort_eq _ _ ?_ xs
      intro a b ha hb
      simp only [decide_eq_true_eq, jsReviewCmp_date] at ha hb
      simp only [reduceIte] at ha hb
      unfold reviewLe
      rw [jsReviewCmp_date]
      by_cases hso : so = "asc" <;> simp [hso] <;> omega
    · refine filter_insertionSort_eq _ _ ?_ xs
      intro a b ha hb
      simp only [decide_eq_true_eq, jsReviewCmp_rating] at ha hb
      simp only [reduceIte] at ha hb
      unfold reviewLe
      rw [jsReviewCmp_rating]
      by_cases hso : so = "asc" <;> simp [hso] <;> omega
    · refine filter_insertionSort_eq _ _ ?_ xs
      intro a b ha hb
      simp only [decide_eq_true_eq, jsReviewCmp_productName] at ha hb
      simp only [reduceIte] at ha hb
      have hab : (productKey a).data = (productKey b).data :=
        ((strCmp_eq_zero_iff _ _).mp ha).trans ((strCmp_eq_zero_iff _ _).mp hb).symm
      unfold reviewLe
      rw [jsReviewCmp_productName]
      by_cases hso : so = "asc" <;>
        simp [hso, (strCmp_eq_zero_iff _ _).mpr hab, (strCmp_eq_zero_iff _ _).mpr hab.symm]
    · refine filter_insertionSort_eq _ _ ?_ xs
      intro a b ha hb
      simp only [decide_eq_true_eq, jsReviewCmp_userName] at ha hb
      simp only [reduceIte] at ha hb
      have hab : (userKey a).data = (userKey b).data :=
        ((strCmp_eq_zero_iff _ _).mp ha).trans ((strCmp_eq_zero_iff _ _).mp hb).symm
      unfold reviewLe
      rw [jsReviewCmp_userName]
      by_cases hso : so = "asc" <;>
        simp [hso, (strCmp_eq_zero_iff _ _).mpr hab, (strCmp_eq_zero_iff _ _).mpr hab.symm]
  · intro hnd
    rcases hsb with rfl | rfl | rfl | rfl
    · haveI : IsTotal Review (reviewLe "date" "asc") :=
        ⟨fun a b => by unfold reviewLe; simp only [jsReviewCmp_date, reduceIte]; omega⟩
      haveI : IsTrans Review (reviewLe "date" "asc") :=
        ⟨fun a b c => by unfold reviewLe; simp only [jsReviewCmp_date, reduceIte]; omega⟩
      refine insertionSort_eq_of_perm (reviewLe "date" "asc")
        (fun a b => jsReviewCmp "date" "asc" a b ≠ 0) ?_ ?_
        (List.perm_insertionSort _ xs) hnd
      · intro a b h
        simp only [jsReviewCmp_date, reduceIte] at h ⊢
        omega
      · intro a b h1 h2 h3
        unfold reviewLe at h1 h2
        simp only [jsReviewCmp_date, reduceIte] at h1 h2 h3
        omega
    · haveI : IsTotal Review (reviewLe "rating" "asc") :=
        ⟨fun a b => by unfold reviewLe; simp only [jsReviewCmp_rating, reduceIte]; omega⟩
      haveI : IsTrans Review (reviewLe "rating" "asc") :=
        ⟨fun a b c => by unfold reviewLe; simp only [jsReviewCmp_rating, reduceIte]; omega⟩
      refine insertionSort_eq_of_perm (reviewLe "rating" "asc")
        (fun a b => jsReviewCmp "rating" "asc" a b ≠ 0) ?_ ?_
        (List.perm_insertionSort _ xs) hnd
      · intro a b h
        simp only [jsReviewCmp_rating, reduceIte] at h ⊢
        omega
      · intro a b h1 h2 h3
        unfold reviewLe at h1 h2
        simp only [jsReviewCmp_rating, reduceIte] at h1 h2 h3
        omega
    · haveI : IsTotal Review (reviewLe "productName" "asc") :=
        ⟨fun a b => by
          unfold reviewLe
          simp only [jsReviewCmp_productName, reduceIte]
          have hsw := strCmp_swap (productKey a) (productKey b)
          omega⟩
      haveI : IsTrans Review (reviewLe "productName" "asc") :=
        ⟨fun a b c => by
          unfold reviewLe
          simp only [jsReviewCmp_productName, reduceIte, strCmp_nonpos_iff]
          exact fun h1 h2 => le_trans h1 h2⟩
      refine insertionSort_eq_of_perm (reviewLe "productName" "asc")
        (fun a b => jsReviewCmp "productName" "asc" a b ≠ 0) ?_ ?_
        (List.perm_insertionSort _ xs) hnd
      · intro a b h
        simp only [jsReviewCmp_productName, reduceIte] at h ⊢
        have hsw := strCmp_swap (productKey a) (productKey b)
        omega
      · intro a b h1 h2 h3
        unfold reviewLe at h1 h2
        simp only [jsReviewCmp_productName, reduceIte] at h1 h2 h3
        have hsw := strCmp_swap (productKey a) (productKey b)
        omega
    · haveI : IsTotal Review (reviewLe "userName" "asc") :=
        ⟨fun a b => by
          unfold reviewLe
          simp only [jsReviewCmp_userName, reduceIte]
          have hsw := strCmp_swap (userKey a) (userKey b)
          omega⟩
      haveI : IsTrans Review (reviewLe "userName" "asc") :=
        ⟨fun a b c => by
          unfold reviewLe
          simp only [jsReviewCmp_userName, reduceIte, strCmp_nonpos_iff]
          exact fun h1 h2 => le_trans h1 h2⟩
      refine insertionSort_eq_of_perm (reviewLe "userName" "asc")
        (fun a b => jsReviewCmp "userName" "asc" a b ≠ 0) ?_ ?_
        (List.perm_insertionSort _ xs) hnd
      · intro a b h
        simp only [jsReviewCmp_userName, reduceIte] at h ⊢
        have hsw := strCmp_swap (userKey a) (userKey b)
        omega
      · intro a b h1 h2 h3
        unfold reviewLe at h1 h2
        simp only [jsReviewCmp_userName, reduceIte] at h1 h2 h3
        have hsw := strCmp_swap (userKey a) (userKey b)
        omega
  · intro d
    refine filter_insertionSort_eq _ _ ?_ os
    intro a b ha hb
    simp only [decide_eq_true_eq] at ha hb
    unfold orderLe jsOrderCmp
    by_cases hso : so = "asc" <;> simp [hso] <;> omega
  · intro hnd
    haveI : IsTotal Order (orderLe "asc") :=
      ⟨fun a b => by unfold orderLe jsOrderCmp; simp; omega⟩
    haveI : IsTrans Order (orderLe "asc") :=
      ⟨fun a b c => by unfold orderLe jsOrderCmp; simp; omega⟩
    refine insertionSort_eq_of_perm (orderLe "asc")
      (fun a b => a.date ≠ b.date) (fun h => h.symm) ?_
      (List.perm_insertionSort _ os) hnd
    intro a b h1 h2 h3
    unfold orderLe jsOrderCmp at h1 h2
    simp only [reduceIte] at h1 h2
    omega

/-- C8 witness: the rating key on a two-review list with distinct ratings
(the spec scenario), and a two-order list with distinct dates. -/
theorem C8_sort_stable_reversal_witness :
    ((sortedReviews "rating" "desc"
        [⟨0, 5, some "", none, none⟩, ⟨1, 2, some "", none, none⟩]).filter
          (fun x => decide (jsReviewCmp "rating" "asc" x ⟨2, 2, some "", none, none⟩ = 0))
        = ([⟨0, 5, some "", none, none⟩, ⟨1, 2, some "", none, none⟩] : List Review).filter
          (fun x => decide (jsReviewCmp "rating" "asc" x ⟨2, 2, some "", none, none⟩ = 0)))
    ∧ sortedReviews "rating" "asc" (sortedReviews "rating" "desc"
        [⟨0, 5, some "", none, none⟩, ⟨1, 2, some "", none, none⟩])
        = sortedReviews "rating" "asc"
          [⟨0, 5, some "", none, none⟩, ⟨1, 2, some "", none, none⟩]
    ∧ (List.insertionSort (orderLe "desc")
          [⟨5, 1, "Packing"⟩, ⟨3, 1, "Delivered"⟩]).filter
          (fun o => decide (o.date = 3))
        = ([⟨5, 1, "Packing"⟩, ⟨3, 1, "Delivered"⟩] : List Order).filter
          (fun o => decide (o.date = 3))
    ∧ List.insertionSort (orderLe "asc") (List.insertionSort (orderLe "desc")
          [⟨5, 1, "Packing"⟩, ⟨3, 1, "Delivered"⟩])
        = List.insertionSort (orderLe "asc") [⟨5, 1, "Packing"⟩, ⟨3, 1, "Delivered"⟩] := by
  have h := C8_sort_stable_reversal "rating" "desc" (Or.inr (Or.inl rfl))
    [⟨0, 5, some "", none, none⟩, ⟨1, 2, some "", none, none⟩]
    ⟨2, 2, some "", none, none⟩ [⟨5, 1, "Packing"⟩, ⟨3, 1, "Delivered"⟩]
  exact ⟨h.1, h.2.1 (by decide), h.2.2.1 3, h.2.2.2 (by decide)⟩

/-! ## Claim C9 -/

/-- C9: the date axis activates only when both bounds are present — with
either bound unset the orders-screen date stage passes every record
through unchanged, and the dashboard custom range with a missing bound
returns the whole collection, in both cases without error. -/
theorem C9_single_bound_inactive (sd ed : Option Civil) (orders : List Order)
    (now : Instant) :
    ((sd = none ∨ ed = none) → dateStage sd ed orders = orders)
    ∧ ((sd = none ∨ ed = none) →
        filterOrdersByDateRange "custom" sd ed now orders = orders) := by
  constructor
  · rintro (rfl | rfl)
    · rfl
    · cases sd <;> rfl
  · rintro (rfl | rfl)
    · rfl
    · cases sd <;> rfl

/-- C9 witness: a start bound with no end bound. -/
theorem C9_single_bound_witness :
    dateStage (some ⟨2024, 1, 1⟩) none [⟨0, 1, "Packing"⟩] = [⟨0, 1, "Packing"⟩]
    ∧ filterOrdersByDateRange "custom" (some ⟨2024, 1, 1⟩) none ⟨2024, 1, 1, 0⟩
        [⟨0, 1, "Packing"⟩] = [⟨0, 1, "Packing"⟩] :=
  ⟨(C9_single_bound_inactive (some ⟨2024, 1, 1⟩) none [⟨0, 1, "Packing"⟩]
      ⟨2024, 1, 1, 0⟩).1 (Or.inr rfl),
    (C9_single_bound_inactive (some ⟨2024, 1, 1⟩) none [⟨0, 1, "Packing"⟩]
      ⟨2024, 1, 1, 0⟩).2 (Or.inr rfl)⟩

/-! ## Claim C10 -/

/-- C10: the normalized date range is inclusive at both ends — an order
dated exactly at the end bound ceiled to 23:59:59.999 (and not before the
floored start) survives the date stage, while an order dated one
millisecond later is dropped. -/
theorem C10_inclusive_end (s e : Civil) (allOrders : List Order) (o1 o2 : Order)
    (h1 : o1 ∈ allOrders) (h2 : o2 ∈ allOrders)
    (hs : civilMs s ≤ o1.date)
    (he1 : o1.date = civilMs e + 86399999)
    (he2 : o2.date = civilMs e + 86400000) :
    o1 ∈ dateStage (some s) (some e) allOrders
    ∧ o2 ∉ dateStage (some s) (some e) allOrders := by
  constructor
  · show o1 ∈ allOrders.filter _
    rw [List.mem_filter]
    refine ⟨h1, ?_⟩
    simp only [Bool.and_eq_true, decide_eq_true_eq]
    omega
  · show o2 ∉ allOrders.filter _
    intro hmem
    rw [List.mem_filter] at hmem
    simp only [Bool.and_eq_true, decide_eq_true_eq] at hmem
    omega

/-- C10 witness: the range 2024-01-01 through 2024-01-02, with one order
at the final millisecond of the end day and one order 1 ms later. -/
theorem C10_inclusive_end_witness :
    (⟨civilMs ⟨2024, 1, 2⟩ + 86399999, 1, "Packing"⟩ : Order) ∈
        dateStage (some ⟨2024, 1, 1⟩) (some ⟨2024, 1, 2⟩)
          [⟨civilMs ⟨2024, 1, 2⟩ + 86399999, 1, "Packing"⟩,
            ⟨civilMs ⟨2024, 1, 2⟩ + 86400000, 1, "Packing"⟩]
    ∧ (⟨civilMs ⟨2024, 1, 2⟩ + 86400000, 1, "Packing"⟩ : Order) ∉
        dateStage (some ⟨2024, 1, 1⟩) (some ⟨2024, 1, 2⟩)
          [⟨civilMs ⟨2024, 1, 2⟩ + 86399999, 1, "Packing"⟩,
            ⟨civilMs ⟨2024, 1, 2⟩ + 86400000, 1, "Packing"⟩] :=
  C10_inclusive_end ⟨2024, 1, 1⟩ ⟨2024, 1, 2⟩ _ _ _ (by decide) (by decide) (by decide)
    rfl rfl

end AlphaAdmin
